import Mathlib

/-!
Verification of the A2DVI hires rendering pipeline (src/firmware/dvi/render_hires.c)
and its collaborators (src/firmware/applebus/buffers.h, buffers.c, and the config
loader compiled into the same translation unit).

The C code is shallowly embedded: machine integers are `Nat` with explicit
`% 2^32` where 32-bit overflow can occur, global state is passed explicitly,
and the per-scanline loops become structural recursions whose intermediate
states are exposed for the invariant proofs.
-/

namespace A2DVI

/-- Softswitch bit selecting hires page 2 (buffers.h, `SOFTSW_PAGE_2`). -/
def SOFTSW_PAGE_2 : Nat := 0x00000008

/-- Softswitch bit for the IIe 80STORE extended-memory mode (buffers.h, `SOFTSW_80STORE`). -/
def SOFTSW_80STORE : Nat := 0x00000100

/-- Page-selection predicate, render_hires.c line 34:
`#define PAGE2SEL ((soft_switches & (SOFTSW_80STORE | SOFTSW_PAGE_2)) == SOFTSW_PAGE_2)`. -/
def PAGE2SEL (soft_switches : Nat) : Bool :=
  (soft_switches &&& (SOFTSW_80STORE ||| SOFTSW_PAGE_2)) == SOFTSW_PAGE_2

/-- The two 8 KB hires bitmap pages: buffers.c sets `hgr_p1 = apple_memory + 0x2000`
and `hgr_p2 = apple_memory + 0x4000`. -/
inductive HgrPage
  | p1
  | p2
deriving DecidableEq, Repr

/-- Page argument the frame orchestrator `render_hires` passes to every
`render_hires_line(PAGE2SEL, line)` call; the line renderer then reads
`p2 ? hgr_p2 : hgr_p1`. -/
def render_hires_page (soft_switches : Nat) : HgrPage :=
  if PAGE2SEL soft_switches then HgrPage.p2 else HgrPage.p1

/-- Line-interleave offset mapper, render_hires.c lines 72-75:
`((line & 0x07) << 10) | ((line & 0x38) << 4) | (((line & 0xc0) >> 6) * 40)`. -/
def hires_line_to_mem_offset (line : Nat) : Nat :=
  ((line &&& 0x07) <<< 10) ||| ((line &&& 0x38) <<< 4) ||| (((line &&& 0xc0) >>> 6) * 40)

/-- Reference interleave formula exactly as quoted by the spec (section 4.1):
`offset = ((line & 7) << 10) | ((line & 0x38) << 4) | ((line >> 6) * 40)`. -/
def hiresOffsetRef (line : Nat) : Nat :=
  ((line &&& 7) <<< 10) ||| ((line &&& 0x38) <<< 4) ||| ((line >>> 6) * 40)

/-! ## Bit-arithmetic helpers -/

/-- Mask by a single-bit power of two, written with a numeral. -/
lemma and_bit_eq (ss k : Nat) : ss &&& 2 ^ k = (ss.testBit k).toNat * 2 ^ k :=
  Nat.and_two_pow ss k

/-- The `PAGE2SEL` macro tests the conjunction: 80STORE clear and PAGE_2 set. -/
lemma pagesel_iff (ss : Nat) :
    PAGE2SEL ss = true ↔ (ss &&& SOFTSW_80STORE = 0 ∧ ss &&& SOFTSW_PAGE_2 ≠ 0) := by
  unfold PAGE2SEL SOFTSW_80STORE SOFTSW_PAGE_2
  rw [beq_iff_eq]
  have hd : ss &&& ((0x100 : Nat) ||| 0x8) = (ss &&& 0x100) ||| (ss &&& 0x8) :=
    Nat.and_or_distrib_left ss 0x100 0x8
  have h8 : ss &&& 0x8 = (ss.testBit 3).toNat * 8 := by
    simpa using and_bit_eq ss 3
  have h256 : ss &&& 0x100 = (ss.testBit 8).toNat * 256 := by
    simpa using and_bit_eq ss 8
  rw [hd, h8, h256]
  cases ht3 : ss.testBit 3 <;> cases ht8 : ss.testBit 8 <;> simp

/-! ## Claim theorems: offset mapper and page selection -/

set_option maxRecDepth 4096 in
/-- C2: for every 8-bit line value (hence for every line index in `[0,192)`),
`hires_line_to_mem_offset` agrees with the spec's reference interleave formula,
and its result lies in `[0, 8192)`.  The function is a plain `def` on `Nat`, so
it is pure and deterministic by construction. -/
theorem hires_offset_matches_reference (line : Nat) (h : line < 256) :
    hires_line_to_mem_offset line = hiresOffsetRef line ∧
    hires_line_to_mem_offset line < 8192 := by
  have H : ∀ l, l < 256 →
      (hires_line_to_mem_offset l = hiresOffsetRef l ∧ hires_line_to_mem_offset l < 8192) := by
    decide
  exact H line h

/-- Witness for C2 at the concrete line 77. -/
theorem hires_offset_matches_reference_witness :
    (77 : Nat) < 256 ∧
    (hires_line_to_mem_offset 77 = hiresOffsetRef 77 ∧ hires_line_to_mem_offset 77 < 8192) :=
  ⟨by decide, hires_offset_matches_reference 77 (by decide)⟩

/-- C5 counterexample: with `soft_switches = SOFTSW_PAGE_2` (page-2 bit set,
80STORE bit clear) the orchestrator selects page 2, not page 1 as the claim says. -/
theorem page2_scenario_counterexample :
    SOFTSW_PAGE_2 &&& SOFTSW_PAGE_2 ≠ 0 ∧
    SOFTSW_PAGE_2 &&& SOFTSW_80STORE = 0 ∧
    render_hires_page SOFTSW_PAGE_2 = HgrPage.p2 ∧
    HgrPage.p2 ≠ HgrPage.p1 := by
  decide

/-- C5 (amended): whenever the PAGE_2 bit is set and the 80STORE bit is clear,
the frame orchestrator selects page 2. -/
theorem page2_scenario_selects_page2 (ss : Nat)
    (h2 : ss &&& SOFTSW_PAGE_2 ≠ 0) (h8 : ss &&& SOFTSW_80STORE = 0) :
    render_hires_page ss = HgrPage.p2 := by
  unfold render_hires_page
  rw [if_pos]
  have := (pagesel_iff ss).mpr ⟨h8, h2⟩
  exact this

/-- Witness for the amended C5 at the concrete softswitch word 0x8. -/
theorem page2_scenario_selects_page2_witness :
    ((0x8 : Nat) &&& SOFTSW_PAGE_2 ≠ 0) ∧ ((0x8 : Nat) &&& SOFTSW_80STORE = 0) ∧
    render_hires_page 0x8 = HgrPage.p2 :=
  ⟨by decide, by decide, page2_scenario_selects_page2 0x8 (by decide) (by decide)⟩

/-- C6: the page-2 bitmap buffer is read exactly when the 80STORE bit is clear
and the PAGE_2 bit is set (a two-bit conjunction); in every other softswitch
state page 1 is read. -/
theorem page_selection_two_bit_conjunction (ss : Nat) :
    (render_hires_page ss = HgrPage.p2 ↔
      (ss &&& SOFTSW_80STORE = 0 ∧ ss &&& SOFTSW_PAGE_2 ≠ 0)) ∧
    (render_hires_page ss = HgrPage.p2 ∨ render_hires_page ss = HgrPage.p1) := by
  constructor
  · rw [← pagesel_iff]
    unfold render_hires_page
    cases h : PAGE2SEL ss <;> simp [h]
  · unfold render_hires_page
    cases PAGE2SEL ss <;> simp

/-! ## Dot-pattern tables (spec-modelled)

The generated headers `hires_dot_patterns.h` and `hires_color_patterns_tmds.h`
are part of the repository but are not under src/, so the tables they define
are modelled from the spec here.  The claims proved below depend only on the
width of the table entries (14 dot bits per byte), not on individual values. -/

/-- Modelled from the spec: helper doubling each of the 7 pixel bits of a byte
into a 2-bit "dot" pair (spec section 4.3 and glossary: 7 pixels per byte, one
pixel is two dots).  Dots are scanned out MSB first in the color path, so pixel
bit `k` occupies dot bits `13 - 2k` and `12 - 2k`. -/
def double7 (b : Nat) : Nat :=
  (List.range 7).foldl (fun acc k => if b.testBit k then acc ||| (3 <<< (12 - 2 * k)) else acc) 0

/-- Modelled from the spec: the color-path table `hires_dot_patterns` (header
`hires_dot_patterns.h`, not in src/) maps a byte to the 14-bit dot pattern of
its 7 pixels; the byte's high bit delays the pattern by one dot (the analog
half-pixel shift), vacating the leading dot position. -/
def hires_dot_patterns (b : Nat) : Nat :=
  if b.testBit 7 then double7 (b % 128) >>> 1 else double7 (b % 128)

/-- Modelled from the spec: helper doubling the 7 pixel bits LSB first, as the
monochrome path consumes its accumulator from the low end. -/
def double7lo (b : Nat) : Nat :=
  (List.range 7).foldl (fun acc k => if b.testBit k then acc ||| (3 <<< (2 * k)) else acc) 0

/-- Modelled from the spec: the monochrome table `hires_dot_patterns2` (header
`hires_dot_patterns.h`, not in src/) has 512 entries; index bits 0-7 are the
byte, index bit 8 re-injects the duplicated trailing dot of the previous byte.
Each entry is a 14-bit dot pattern. -/
def hires_dot_patterns2 (idx : Nat) : Nat :=
  let b := idx % 256
  let base := double7lo (b % 128)
  let shifted := if b.testBit 7 then (base <<< 1) % 2 ^ 14 else base
  if idx.testBit 8 then shifted ||| 1 else shifted

/-- Every color dot pattern fits in 14 bits. -/
lemma hires_dot_patterns_lt (b : Nat) : hires_dot_patterns b < 2 ^ 14 := by
  have H : ∀ x, x < 128 → double7 x < 2 ^ 14 := by decide
  have h := H (b % 128) (Nat.mod_lt b (by norm_num))
  unfold hires_dot_patterns
  rcases hb : b.testBit 7 <;> simp only [hb, Bool.false_eq_true, if_true, if_false]
  · exact h
  · rw [Nat.shiftRight_eq_div_pow, pow_one]
    omega

/-- With the high bit set the (delayed) pattern fits in 13 bits. -/
lemma hires_dot_patterns_msb_lt (b : Nat) (hb : b.testBit 7 = true) :
    hires_dot_patterns b < 2 ^ 13 := by
  have H : ∀ x, x < 128 → double7 x < 2 ^ 14 := by decide
  have h := H (b % 128) (Nat.mod_lt b (by norm_num))
  have h14 : (2 : Nat) ^ 14 = 2 * 2 ^ 13 := by norm_num
  unfold hires_dot_patterns
  rw [hb, if_pos rfl, Nat.shiftRight_eq_div_pow, pow_one]
  omega

/-- Every monochrome dot pattern fits in 14 bits. -/
lemma hires_dot_patterns2_lt (idx : Nat) : hires_dot_patterns2 idx < 2 ^ 14 := by
  have H : ∀ x, x < 128 → double7lo x < 2 ^ 14 := by decide
  have h := H (idx % 256 % 128) (Nat.mod_lt _ (by norm_num))
  have hpos : 0 < (2 : Nat) ^ 14 := by positivity
  unfold hires_dot_patterns2
  have hs : (if (idx % 256).testBit 7 then double7lo (idx % 256 % 128) <<< 1 % 2 ^ 14
             else double7lo (idx % 256 % 128)) < 2 ^ 14 := by
    rcases hb : (idx % 256).testBit 7 <;>
      simp only [hb, Bool.false_eq_true, if_true, if_false]
    · exact h
    · exact Nat.mod_lt _ hpos
  rcases h8 : idx.testBit 8 <;> simp only [h8, Bool.false_eq_true, if_true, if_false]
  · exact hs
  · exact Nat.or_lt_two_pow hs (by norm_num)

/-! ## Color scanline path (render_hires.c lines 108-153)

One emission event records the operands of a table lookup
`dot_pattern = oddness | ((dots >> 24) & 0xff)`; the three channel symbols of a
triple are `hires_color_patterns_red/green/blue[dot_pattern]`. -/

/-- One recorded color emission: the oddness flag and the 8-bit window byte
that together form the table index. -/
structure CEmit where
  oddness : Nat
  winByte : Nat
deriving DecidableEq, Repr

/-- Color-path loop state: the 32-bit dot window, the oddness flag, and the
emissions so far. -/
structure CState where
  dots : Nat
  oddness : Nat
  out : List CEmit
deriving DecidableEq, Repr

/-- Body of the inner `for(j=0; j<7; j++)` loop: emit one triple at index
`oddness | ((dots >> 24) & 0xff)`, then `dots <<= 2` (32-bit) and
`oddness ^= 0x100`. -/
def consumeStep (s : CState) : CState :=
  { dots := (s.dots <<< 2) % 2 ^ 32
    oddness := s.oddness ^^^ 0x100
    out := s.out ++ [⟨s.oddness, (s.dots >>> 24) &&& 0xff⟩] }

/-- Iterated consume steps; the C code always runs 7 of them per byte. -/
def consumeN : Nat → CState → CState
  | 0, s => s
  | n + 1, s => consumeN n (consumeStep s)

/-- The bit-7 replication, render_hires.c lines 137-140: if the incoming byte's
high bit is set, `dots |= (dots & (1u << 15)) >> 1`. -/
def extend_last_bit (dots b : Nat) : Nat :=
  if b &&& 0x80 ≠ 0 then dots ||| ((dots &&& (1 <<< 15)) >>> 1) else dots

/-- Replication followed by the merge `dots |= hires_dot_patterns[b] << 1`. -/
def byteDots (dots b : Nat) : Nat :=
  extend_last_bit dots b ||| (hires_dot_patterns b <<< 1)

/-- The byte consumed in iteration `i`: `(i < 40) ? line_mem[i] : 0`. -/
def byteAt (mem : Nat → Nat) (i : Nat) : Nat :=
  if i < 40 then mem i else 0

/-- Initial color state: `dots = (uint32_t)hires_dot_patterns[line_mem[0]] << 15`,
`oddness = 0`, no emissions yet. -/
def colorInit (mem : Nat → Nat) : CState :=
  ⟨(hires_dot_patterns (mem 0) <<< 15) % 2 ^ 32, 0, []⟩

/-- One iteration of the outer byte loop with loop counter `i`. -/
def colorIter (mem : Nat → Nat) (s : CState) (i : Nat) : CState :=
  consumeN 7 { s with dots := byteDots s.dots (byteAt mem i) }

/-- State after the first `n` iterations of the byte loop; the C loop counter
runs `i = 1, ..., 40`, so iteration number `n` (1-based) uses `i = n`. -/
def colorRun (mem : Nat → Nat) : Nat → CState
  | 0 => colorInit mem
  | n + 1 => colorIter mem (colorRun mem n) (n + 1)

/-- The complete color scanline pass over a 40-byte line. -/
def render_hires_line_color (mem : Nat → Nat) : CState :=
  colorRun mem 40

/-- The emitted channel-symbol triples, one per emission, obtained by indexing
the red, green and blue color tables at `oddness | winByte`. -/
def colorTriples (red green blue : Nat → Nat) (mem : Nat → Nat) : List (Nat × Nat × Nat) :=
  (render_hires_line_color mem).out.map
    (fun e => (red (e.oddness ||| e.winByte), green (e.oddness ||| e.winByte),
               blue (e.oddness ||| e.winByte)))

/-- Oddness value expected for the k-th emission of a line. -/
def oddOf (n : Nat) : Nat :=
  if n % 2 = 0 then 0 else 0x100

/-! ## Color-path invariants -/

/-- Disjoint bit ranges make bitwise or into addition. -/
lemma lor_eq_add_of_mod {a c k : Nat} (ha : a % 2 ^ k = 0) (hc : c < 2 ^ k) :
    a ||| c = a + c := by
  obtain ⟨q, hq⟩ := Nat.dvd_of_mod_eq_zero ha
  subst hq
  exact (Nat.mul_add_lt_is_or hc q).symm

/-- Composition of two 32-bit shifts with truncation. -/
lemma shiftl_mod_comp (x a b : Nat) :
    (((x <<< a) % 2 ^ 32) <<< b) % 2 ^ 32 = (x <<< (a + b)) % 2 ^ 32 := by
  rw [Nat.shiftLeft_eq, Nat.shiftLeft_eq, Nat.shiftLeft_eq, pow_add, ← Nat.mul_assoc]
  exact Nat.mod_mul_mod

/-- Each consume step appends exactly one emission. -/
lemma consumeN_out_length (n : Nat) : ∀ s : CState, (consumeN n s).out.length = s.out.length + n := by
  induction n with
  | zero => intro s; rfl
  | succ n ih =>
    intro s
    show (consumeN n (consumeStep s)).out.length = _
    rw [ih]
    simp only [consumeStep, List.length_append, List.length_cons, List.length_nil]
    omega

/-- Toggling by 0x100 tracks the parity of the emission count. -/
lemma oddOf_step (n : Nat) : oddOf n ^^^ 0x100 = oddOf (n + 1) := by
  unfold oddOf
  rcases Nat.mod_two_eq_zero_or_one n with h | h
  · rw [if_pos h, if_neg (by omega)]
    decide
  · rw [if_neg (by omega), if_pos (by omega)]
    decide

/-- Oddness invariant: the flag always equals the parity value of the emission
count, and every past emission recorded the parity value of its own position. -/
def CInv (s : CState) : Prop :=
  s.oddness = oddOf s.out.length ∧
  s.out.map CEmit.oddness = (List.range s.out.length).map oddOf

lemma consumeStep_CInv {s : CState} (h : CInv s) : CInv (consumeStep s) := by
  obtain ⟨h1, h2⟩ := h
  unfold CInv consumeStep
  simp only [List.length_append, List.length_cons, List.length_nil, List.map_append,
    List.map_cons, List.map_nil, Nat.zero_add]
  constructor
  · rw [h1, oddOf_step]
  · rw [h2, h1, List.range_succ]
    simp

lemma consumeN_CInv (n : Nat) : ∀ s : CState, CInv s → CInv (consumeN n s) := by
  induction n with
  | zero => intro s h; exact h
  | succ n ih => intro s h; exact ih _ (consumeStep_CInv h)

lemma colorRun_CInv (mem : Nat → Nat) : ∀ n, CInv (colorRun mem n) := by
  intro n
  induction n with
  | zero =>
    constructor
    · rfl
    · rfl
  | succ n ih =>
    show CInv (colorIter mem (colorRun mem n) (n + 1))
    unfold colorIter
    apply consumeN_CInv
    exact ih

/-- Emission count after `n` byte iterations. -/
lemma colorRun_length (mem : Nat → Nat) : ∀ n, (colorRun mem n).out.length = 7 * n := by
  intro n
  induction n with
  | zero => rfl
  | succ n ih =>
    show (colorIter mem (colorRun mem n) (n + 1)).out.length = _
    unfold colorIter
    rw [consumeN_out_length]
    show (colorRun mem n).out.length + 7 = _
    rw [ih]
    omega

/-- The seven consume steps shift the window left by 14 bits (mod 2^32). -/
lemma consumeN_dots (n : Nat) : ∀ s : CState, s.dots < 2 ^ 32 →
    (consumeN n s).dots = (s.dots <<< (2 * n)) % 2 ^ 32 := by
  induction n with
  | zero =>
    intro s hs
    show s.dots = (s.dots <<< (2 * 0)) % 2 ^ 32
    rw [Nat.mul_zero, Nat.shiftLeft_zero, Nat.mod_eq_of_lt hs]
  | succ n ih =>
    intro s hs
    show (consumeN n (consumeStep s)).dots = _
    rw [ih (consumeStep s) (Nat.mod_lt _ (by positivity))]
    show (((s.dots <<< 2) % 2 ^ 32) <<< (2 * n)) % 2 ^ 32 = _
    rw [shiftl_mod_comp]
    rw [show 2 + 2 * n = 2 * (n + 1) from by omega]

lemma consumeN_dots_lt (n : Nat) : ∀ s : CState, s.dots < 2 ^ 32 →
    (consumeN n s).dots < 2 ^ 32 := by
  induction n with
  | zero => intro s hs; exact hs
  | succ n ih => intro s _; exact ih (consumeStep s) (Nat.mod_lt _ (by positivity))

/-- The replication stage adds exactly the single carried dot bit: the window's
bit 14 receives the value of bit 15 precisely when the byte's high bit is set. -/
lemma extend_last_bit_eq (d b : Nat) (hd : d % 2 ^ 15 = 0) :
    extend_last_bit d b = d + (if b.testBit 7 && d.testBit 15 then 2 ^ 14 else 0) := by
  have hand : b &&& 0x80 = (b.testBit 7).toNat * 128 := by
    simpa using and_bit_eq b 7
  unfold extend_last_bit
  rcases hb : b.testBit 7
  · have hcond : b &&& 0x80 = 0 := by rw [hand]; simp [hb]
    rw [if_neg (by simp [hcond])]
    simp
  · have hcond : b &&& 0x80 ≠ 0 := by rw [hand]; simp [hb]
    rw [if_pos hcond]
    have h15 : d &&& (1 <<< 15) = (d.testBit 15).toNat * 2 ^ 15 := by
      rw [show (1 <<< 15 : Nat) = 2 ^ 15 from by decide]
      exact and_bit_eq d 15
    rcases h15b : d.testBit 15
    · rw [h15]
      simp [h15b]
    · have hbit : (d &&& (1 <<< 15)) >>> 1 = 2 ^ 14 := by
        rw [h15, h15b]
        decide
      rw [hbit, if_pos (by simp)]
      exact lor_eq_add_of_mod hd (by norm_num)

/-- The full byte-boundary step: old window plus the new byte's pattern at bit
offset 1, plus the single carry bit when the high bit is set. -/
lemma byteDots_eq (d b : Nat) (hd : d % 2 ^ 15 = 0) :
    byteDots d b = d + hires_dot_patterns b <<< 1 +
      (if b.testBit 7 && d.testBit 15 then 2 ^ 14 else 0) := by
  have hp := hires_dot_patterns_lt b
  have hp2 : hires_dot_patterns b <<< 1 < 2 ^ 15 := by
    rw [Nat.shiftLeft_eq, pow_one]
    have : (2 : Nat) ^ 14 * 2 = 2 ^ 15 := by norm_num
    omega
  unfold byteDots
  rw [extend_last_bit_eq d b hd]
  rcases hb : b.testBit 7
  · simp only [hb, Bool.false_and, Bool.false_eq_true, if_false, Nat.add_zero]
    exact lor_eq_add_of_mod hd hp2
  · rcases h15b : d.testBit 15
    · simp only [hb, h15b, Bool.and_false, Bool.false_eq_true, if_false, Nat.add_zero]
      exact lor_eq_add_of_mod hd hp2
    · simp only [hb, h15b, Bool.and_self, if_pos]
      have hp13 := hires_dot_patterns_msb_lt b hb
      have hp14 : hires_dot_patterns b <<< 1 < 2 ^ 14 := by
        rw [Nat.shiftLeft_eq, pow_one]
        have : (2 : Nat) ^ 13 * 2 = 2 ^ 14 := by norm_num
        omega
      have hmod : (d + 2 ^ 14) % 2 ^ 14 = 0 := by
        have h1 : (2 : Nat) ^ 14 ∣ d :=
          dvd_trans (by norm_num) (Nat.dvd_of_mod_eq_zero hd)
        have h2 : (2 : Nat) ^ 14 ∣ d + 2 ^ 14 := Dvd.dvd.add h1 dvd_rfl
        exact Nat.mod_eq_zero_of_dvd h2
      rw [lor_eq_add_of_mod hmod hp14]
      omega

lemma byteDots_lt (d b : Nat) (hd : d < 2 ^ 32) : byteDots d b < 2 ^ 32 := by
  have hp2 : hires_dot_patterns b <<< 1 < 2 ^ 32 := by
    have := hires_dot_patterns_lt b
    rw [Nat.shiftLeft_eq, pow_one]
    have h : (2 : Nat) ^ 14 * 2 ≤ 2 ^ 32 := by norm_num
    omega
  unfold byteDots extend_last_bit
  apply Nat.or_lt_two_pow _ hp2
  split
  · apply Nat.or_lt_two_pow hd
    calc (d &&& (1 <<< 15)) >>> 1 ≤ d &&& (1 <<< 15) := by
          rw [Nat.shiftRight_eq_div_pow, pow_one]
          omega
      _ ≤ d := Nat.and_le_left
      _ < 2 ^ 32 := hd
  · exact hd

lemma colorRun_dots_lt (mem : Nat → Nat) : ∀ n, (colorRun mem n).dots < 2 ^ 32 := by
  intro n
  induction n with
  | zero => exact Nat.mod_lt _ (by positivity)
  | succ n ih =>
    show (colorIter mem (colorRun mem n) (n + 1)).dots < 2 ^ 32
    unfold colorIter
    exact consumeN_dots_lt 7 _ (byteDots_lt _ _ ih)

/-- Window invariant: at the start of every byte iteration the low 15 bits of
the 32-bit window are clear (the previous iteration shifted them out). -/
lemma colorRun_dots_mod (mem : Nat → Nat) : ∀ n, (colorRun mem n).dots % 2 ^ 15 = 0 := by
  intro n
  have hdvd32 : (2 : Nat) ^ 15 ∣ 2 ^ 32 := by norm_num
  induction n with
  | zero =>
    show ((hires_dot_patterns (mem 0) <<< 15) % 2 ^ 32) % 2 ^ 15 = 0
    apply Nat.mod_eq_zero_of_dvd
    rw [Nat.dvd_mod_iff hdvd32, Nat.shiftLeft_eq]
    exact dvd_mul_left _ _
  | succ n ih =>
    show (colorIter mem (colorRun mem n) (n + 1)).dots % 2 ^ 15 = 0
    unfold colorIter
    rw [consumeN_dots 7 _ (byteDots_lt _ _ (colorRun_dots_lt mem n))]
    apply Nat.mod_eq_zero_of_dvd
    rw [Nat.dvd_mod_iff hdvd32, Nat.shiftLeft_eq]
    have heven : 2 ∣ byteDots (colorRun mem n).dots (byteAt mem (n + 1)) := by
      rw [byteDots_eq _ _ ih]
      obtain ⟨q, hq⟩ := Nat.dvd_of_mod_eq_zero ih
      have h2 : (2 : Nat) ∣ hires_dot_patterns (byteAt mem (n + 1)) <<< 1 := by
        rw [Nat.shiftLeft_eq, pow_one]
        exact dvd_mul_left _ _
      have h3 : (2 : Nat) ∣ (if (byteAt mem (n + 1)).testBit 7 &&
          (colorRun mem n).dots.testBit 15 then 2 ^ 14 else 0) := by
        split
        · norm_num
        · norm_num
      have h1 : (2 : Nat) ∣ (colorRun mem n).dots := by
        rw [hq]
        exact Dvd.dvd.mul_right (by norm_num) q
      exact Dvd.dvd.add (Dvd.dvd.add h1 h2) h3
    obtain ⟨y, hy⟩ := heven
    rw [hy]
    have : 2 * y * 2 ^ (2 * 7) = y * 2 ^ 15 := by ring
    rw [this]
    exact dvd_mul_left _ _

/-! ## Claim theorems: color path -/

/-- C1: for every 40-byte scanline input and any channel tables, the color path
emits exactly 280 symbol triples, and the oddness flag of the k-th triple is
`oddOf k`: it starts at 0 for the first triple and alternates (toggling after
every consumed 2-bit group) for the whole line. -/
theorem color_line_280_triples_alternating (mem red green blue : Nat → Nat) :
    (colorTriples red green blue mem).length = 280 ∧
    (render_hires_line_color mem).out.map CEmit.oddness = (List.range 280).map oddOf ∧
    oddOf 0 = 0 := by
  have hlen : (colorRun mem 40).out.length = 280 := by
    rw [colorRun_length mem 40]
  have hinv := (colorRun_CInv mem 40).2
  rw [hlen] at hinv
  refine ⟨?_, ?_, rfl⟩
  · unfold colorTriples render_hires_line_color
    rw [List.length_map]
    exact hlen
  · exact hinv

/-- C4 counterexample: one full color line performs 40 byte iterations of 7
consumed groups each (280 emissions), not the 41 iterations claimed (which
would give 287). -/
theorem color_line_iterations_counterexample :
    (render_hires_line_color (fun _ => 0)).out.length = 40 * 7 ∧ 40 * 7 ≠ 41 * 7 := by
  constructor
  · show (colorRun (fun _ => 0) 40).out.length = 40 * 7
    rw [colorRun_length]
  · decide

/-- C4 (amended): the color path seeds its 32-bit window from the first byte's
7-dot pattern pre-shifted into the high bits, then iterates over bytes 1..39
plus one synthetic trailing zero byte — 40 iterations in total — each iteration
merging one byte and consuming exactly seven 2-bit groups. -/
theorem color_line_seed_and_40_iterations (mem : Nat → Nat) :
    (colorInit mem).dots = (hires_dot_patterns (mem 0) <<< 15) % 2 ^ 32 ∧
    (∀ s : CState, ∀ i : Nat, (colorIter mem s i).out.length = s.out.length + 7) ∧
    (render_hires_line_color mem).out.length = 40 * 7 ∧
    byteAt mem 40 = 0 ∧
    (∀ i : Fin 39, byteAt mem (i.val + 1) = mem (i.val + 1)) := by
  refine ⟨rfl, ?_, ?_, by simp [byteAt], ?_⟩
  · intro s i
    unfold colorIter
    rw [consumeN_out_length]
  · show (colorRun mem 40).out.length = 40 * 7
    rw [colorRun_length]
  · intro i
    have hi := i.isLt
    unfold byteAt
    rw [if_pos (by omega)]

/-- C3: at the start of each color byte iteration the window's low 15 bits are
clear; the bit-7 replication stage then adds exactly the single bit 14, holding
the value of bit 15, precisely when the incoming byte's high bit is set (no
change when it is clear); and the merge adds the new byte's pattern at fixed
bit offset 1.  Hence at most one bit of state crosses a byte boundary, exactly
when the source byte's high bit is set. -/
theorem color_byte_boundary_carry (mem : Nat → Nat) (i : Fin 40) :
    (colorRun mem i.val).dots % 2 ^ 15 = 0 ∧
    extend_last_bit (colorRun mem i.val).dots (byteAt mem (i.val + 1)) =
      (colorRun mem i.val).dots +
      (if (byteAt mem (i.val + 1)).testBit 7 && (colorRun mem i.val).dots.testBit 15
        then 2 ^ 14 else 0) ∧
    byteDots (colorRun mem i.val).dots (byteAt mem (i.val + 1)) =
      (colorRun mem i.val).dots + hires_dot_patterns (byteAt mem (i.val + 1)) <<< 1 +
      (if (byteAt mem (i.val + 1)).testBit 7 && (colorRun mem i.val).dots.testBit 15
        then 2 ^ 14 else 0) := by
  have hd := colorRun_dots_mod mem i.val
  exact ⟨hd, extend_last_bit_eq _ _ hd, byteDots_eq _ _ hd⟩

/-! ## Monochrome scanline path (render_hires.c lines 84-107) -/

/-- Monochrome loop state: the cross-byte carry `lastmsb`, the buffered dot
count `dotc`, the 32-bit dot accumulator `dots`, and the emitted table indices
(one `dots & 0x3` value per symbol triple). -/
structure MState where
  lastmsb : Nat
  dotc : Nat
  dots : Nat
  out : List Nat
deriving DecidableEq, Repr

/-- Structural worker for the drain loop.  The `while(dotc)` test of the C
loop is the explicit `s.dotc = 0` check; the extra Nat argument is only a
structural bound on the iteration count (each pass lowers `dotc` by at least
one, so any bound of at least `s.dotc` is enough). -/
def drainAux : Nat → MState → MState
  | 0, s => s
  | f + 1, s =>
    if s.dotc = 0 then s
    else drainAux f { lastmsb := s.lastmsb, dotc := s.dotc - 2, dots := s.dots >>> 2,
                      out := s.out ++ [s.dots &&& 0x3] }

/-- The inner `while(dotc)` drain loop: emit one triple from `dots & 0x3`, then
`dots >>= 2; dotc -= 2`.  (C's `uint_fast8_t` subtraction is truncated here to
Nat subtraction; the two agree on all reachable states, where `dotc` is even.) -/
def drain (s : MState) : MState :=
  drainAux s.dotc s

/-- The list of 2-bit groups the drain loop emits from accumulator `d` in `m`
drain steps. -/
def chunks : Nat → Nat → List Nat
  | _, 0 => []
  | d, m + 1 => (d &&& 0x3) :: chunks (d >>> 2) m

/-- One iteration of the mono byte loop with loop counter `i`: merge
`hires_dot_patterns2[lastmsb | line_mem[i]] << dotc` into the accumulator,
latch `lastmsb = (dotc>0) ? ((line_mem[i] & 0x40)<<2) : 0`, add 14 to `dotc`,
then drain. -/
def monoByte (mem : Nat → Nat) (s : MState) (i : Nat) : MState :=
  drain { lastmsb := if s.dotc > 0 then (mem i &&& 0x40) <<< 2 else 0,
          dotc := s.dotc + 14,
          dots := s.dots ||| ((hires_dot_patterns2 (s.lastmsb ||| mem i) <<< s.dotc) % 2 ^ 32),
          out := s.out }

/-- State after the first `n` iterations of the mono byte loop (`i = 0..39`). -/
def monoRun (mem : Nat → Nat) : Nat → MState
  | 0 => ⟨0, 0, 0, []⟩
  | n + 1 => monoByte mem (monoRun mem n) n

/-- The complete monochrome pass over a 40-byte line. -/
def render_hires_line_mono (mem : Nat → Nat) : MState :=
  monoRun mem 40

/-- The emitted channel-symbol triples of the mono path: each emission indexes
the three 4-entry mono tables at the same 2-bit value. -/
def monoTriples (red green blue : Nat → Nat) (mem : Nat → Nat) : List (Nat × Nat × Nat) :=
  (render_hires_line_mono mem).out.map (fun v => (red v, green v, blue v))

/-! ## Monochrome-path invariants -/

lemma chunks_length : ∀ (m d : Nat), (chunks d m).length = m := by
  intro m
  induction m with
  | zero => intro d; rfl
  | succ m ih =>
    intro d
    show ((d &&& 0x3) :: chunks (d >>> 2) m).length = m + 1
    rw [List.length_cons, ih]

lemma chunks_mem_lt : ∀ (m d v : Nat), v ∈ chunks d m → v < 4 := by
  intro m
  induction m with
  | zero => intro d v hv; simp [chunks] at hv
  | succ m ih =>
    intro d v hv
    rcases List.mem_cons.mp hv with h | h
    · subst h
      exact Nat.lt_of_le_of_lt Nat.and_le_right (by norm_num)
    · exact ih (d >>> 2) v h

/-- Evaluation of the drain worker on an even buffered count, for any
sufficient structural bound. -/
lemma drainAux_eval (m : Nat) : ∀ (f : Nat), m ≤ f → ∀ l c d o, c = 2 * m →
    drainAux f ⟨l, c, d, o⟩ = ⟨l, 0, d >>> (2 * m), o ++ chunks d m⟩ := by
  induction m with
  | zero =>
    intro f hf l c d o hc
    have hc0 : c = 0 := by omega
    subst hc0
    rcases f with _ | g
    · simp [drainAux, chunks]
    · simp [drainAux, chunks]
  | succ m ih =>
    intro f hf l c d o hc
    rcases f with _ | g
    · omega
    · show drainAux (g + 1) ⟨l, c, d, o⟩ = _
      simp only [drainAux]
      rw [if_neg (by show ¬(c = 0); omega)]
      rw [ih g (by omega) l (c - 2) (d >>> 2) (o ++ [d &&& 0x3]) (by omega)]
      congr 1
      · rw [← Nat.shiftRight_add]
        congr 1
        omega
      · rw [List.append_assoc]
        congr 1

/-- Evaluation of the drain loop on an even buffered count. -/
lemma drain_eval (m : Nat) : ∀ l c d o, c = 2 * m →
    drain ⟨l, c, d, o⟩ = ⟨l, 0, d >>> (2 * m), o ++ chunks d m⟩ := by
  intro l c d o hc
  show drainAux c ⟨l, c, d, o⟩ = _
  exact drainAux_eval m c (by omega) l c d o hc

/-- Main monochrome invariant: at the start of every byte iteration the carry
`lastmsb` is 0, the buffered dot count is 0 and the accumulator is empty; each
of the `n` bytes so far produced exactly 7 emissions, all of them below 4. -/
lemma monoRun_inv (mem : Nat → Nat) : ∀ n,
    (monoRun mem n).lastmsb = 0 ∧ (monoRun mem n).dotc = 0 ∧ (monoRun mem n).dots = 0 ∧
    (monoRun mem n).out.length = 7 * n ∧ ∀ v ∈ (monoRun mem n).out, v < 4 := by
  intro n
  induction n with
  | zero =>
    refine ⟨rfl, rfl, rfl, rfl, ?_⟩
    intro v hv
    simp [monoRun] at hv
  | succ n ih =>
    obtain ⟨hl, hc, hd, hlen, hv⟩ := ih
    have hp32 : hires_dot_patterns2 (mem n) < 2 ^ 32 :=
      lt_trans (hires_dot_patterns2_lt _) (by norm_num)
    have hp32n : hires_dot_patterns2 (mem n) < 4294967296 := by
      have := hires_dot_patterns2_lt (mem n)
      norm_num at this
      omega
    have hmerge : monoByte mem (monoRun mem n) n =
        drain ⟨0, 14, hires_dot_patterns2 (mem n), (monoRun mem n).out⟩ := by
      unfold monoByte
      rw [hl, hc, hd]
      simp [Nat.mod_eq_of_lt hp32n]
    rw [show monoRun mem (n + 1) = monoByte mem (monoRun mem n) n from rfl]
    rw [hmerge, drain_eval 7 0 14 (hires_dot_patterns2 (mem n)) _ (by norm_num)]
    refine ⟨rfl, rfl, ?_, ?_, ?_⟩
    · show hires_dot_patterns2 (mem n) >>> (2 * 7) = 0
      rw [Nat.shiftRight_eq_div_pow]
      exact Nat.div_eq_of_lt (hires_dot_patterns2_lt _)
    · show ((monoRun mem n).out ++ chunks (hires_dot_patterns2 (mem n)) 7).length = 7 * (n + 1)
      rw [List.length_append, hlen, chunks_length]
      omega
    · intro v hvv
      rcases List.mem_append.mp hvv with h | h
      · exact hv v h
      · exact chunks_mem_lt 7 _ v h

/-! ## Color emission domain invariant -/

/-- Domain invariant used for the table-index bound: the oddness flag is 0 or
0x100, and every recorded emission has oddness 0 or 0x100 and a window byte
below 256. -/
def BInv (s : CState) : Prop :=
  (s.oddness = 0 ∨ s.oddness = 0x100) ∧
  ∀ e ∈ s.out, (e.oddness = 0 ∨ e.oddness = 0x100) ∧ e.winByte < 256

lemma consumeStep_BInv {s : CState} (h : BInv s) : BInv (consumeStep s) := by
  obtain ⟨h1, h2⟩ := h
  constructor
  · rcases h1 with h | h
    · right
      show s.oddness ^^^ 0x100 = 0x100
      rw [h]
      decide
    · left
      show s.oddness ^^^ 0x100 = 0
      rw [h]
      decide
  · intro e he
    rcases List.mem_append.mp he with he | he
    · exact h2 e he
    · have : e = ⟨s.oddness, (s.dots >>> 24) &&& 0xff⟩ := by
        simpa using he
      subst this
      exact ⟨h1, Nat.lt_of_le_of_lt Nat.and_le_right (by norm_num)⟩

lemma consumeN_BInv (n : Nat) : ∀ s : CState, BInv s → BInv (consumeN n s) := by
  induction n with
  | zero => intro s h; exact h
  | succ n ih => intro s h; exact ih _ (consumeStep_BInv h)

lemma colorRun_BInv (mem : Nat → Nat) : ∀ n, BInv (colorRun mem n) := by
  intro n
  induction n with
  | zero =>
    refine ⟨Or.inl rfl, ?_⟩
    intro e he
    simp [colorRun, colorInit] at he
  | succ n ih =>
    show BInv (colorIter mem (colorRun mem n) (n + 1))
    unfold colorIter
    exact consumeN_BInv 7 _ ih

/-! ## Claim theorems: monochrome path and table-index domains -/

/-- C7: for every 40-byte line, the monochrome path produces 14 dot bits per
byte (560 in total), drains them two per emitted symbol triple (280 triples),
and finishes with an empty accumulator: both the buffered dot count and the
accumulator itself are zero after the last byte. -/
theorem mono_line_bit_balance (mem red green blue : Nat → Nat) :
    (monoTriples red green blue mem).length = 280 ∧
    (render_hires_line_mono mem).out.length = 280 ∧
    (render_hires_line_mono mem).dotc = 0 ∧
    (render_hires_line_mono mem).dots = 0 ∧
    40 * 14 = 2 * 280 := by
  obtain ⟨hl, hc, hd, hlen, hv⟩ := monoRun_inv mem 40
  have h280 : (monoRun mem 40).out.length = 280 := by omega
  exact ⟨by unfold monoTriples render_hires_line_mono; rw [List.length_map]; exact h280,
    h280, hc, hd, by norm_num⟩

/-- C10: the drain loop empties the accumulator after every byte, so at the
start of each of the 40 byte iterations the buffered dot count is 0 and the
cross-byte carry `lastmsb` is 0; hence the pixel-doubling injection (index bit
8) is never applied and every mono merge-table index is the plain source byte,
in `[0, 256)`. -/
theorem mono_no_cross_byte_carry (mem : Nat → Nat) (i : Fin 40) (h : mem i.val < 256) :
    (monoRun mem i.val).dotc = 0 ∧
    (monoRun mem i.val).lastmsb = 0 ∧
    (monoRun mem i.val).lastmsb ||| mem i.val = mem i.val ∧
    (monoRun mem i.val).lastmsb ||| mem i.val < 256 := by
  obtain ⟨hl, hc, -, -, -⟩ := monoRun_inv mem i.val
  refine ⟨hc, hl, ?_, ?_⟩
  · rw [hl]
    exact Nat.zero_or _
  · rw [hl, Nat.zero_or]
    exact h

/-- Witness for C10 with the constant line byte 0x11 at iteration 3. -/
theorem mono_no_cross_byte_carry_witness :
    (17 : Nat) < 256 ∧
    ((monoRun (fun _ => 17) 3).dotc = 0 ∧
     (monoRun (fun _ => 17) 3).lastmsb = 0 ∧
     (monoRun (fun _ => 17) 3).lastmsb ||| 17 = 17 ∧
     (monoRun (fun _ => 17) 3).lastmsb ||| 17 < 256) :=
  ⟨by decide, mono_no_cross_byte_carry (fun _ => 17) ⟨3, by decide⟩ (by decide)⟩

/-- C8: every table index the decode algorithm produces stays inside its
table's domain: each color-path index `oddness | ((dots >> 24) & 0xff)` lies in
`[0, 512)` (256 window values times 2 oddness states), and each mono-path
index `dots & 0x3` lies in `[0, 4)`, for all possible input byte values. -/
theorem table_indices_within_domain (mem : Nat → Nat) :
    ((render_hires_line_color mem).out.all
        (fun e => decide (e.oddness ||| e.winByte < 512))) = true ∧
    ((render_hires_line_mono mem).out.all (fun v => decide (v < 4))) = true := by
  constructor
  · rw [List.all_eq_true]
    intro e he
    simp only [decide_eq_true_eq]
    obtain ⟨-, h2⟩ := colorRun_BInv mem 40
    obtain ⟨ho, hw⟩ := h2 e he
    have h512 : (512 : Nat) = 2 ^ 9 := by norm_num
    rw [h512]
    apply Nat.or_lt_two_pow
    · rcases ho with h | h <;> rw [h] <;> norm_num
    · exact lt_trans hw (by norm_num)
  · rw [List.all_eq_true]
    intro v hv
    simp only [decide_eq_true_eq]
    obtain ⟨-, -, -, -, h5⟩ := monoRun_inv mem 40
    exact h5 v hv

/-! ## Configuration loader (config code compiled into the same file, lines 385-458)

The loader's collaborating headers (`config.h`, `fonts/textfont.h` and the
pico-SDK flash header) are not under src/, so their constants are modelled from
the spec; the claims do not depend on the specific numeric values. -/

/-- Internal flag bit (buffers.h, `IFLAGS_DEBUG_LINES`). -/
def IFLAGS_DEBUG_LINES : Nat := 0x00100000

/-- Internal flag bit (buffers.h, `IFLAGS_FORCED_MONO`). -/
def IFLAGS_FORCED_MONO : Nat := 0x00400000

/-- Internal flag bit (buffers.h, `IFLAGS_SCANLINEEMU`). -/
def IFLAGS_SCANLINEEMU : Nat := 0x00800000

/-- Internal flag bit (buffers.h, `IFLAGS_VIDEO7`). -/
def IFLAGS_VIDEO7 : Nat := 0x04000000

/-- Internal flag bit (buffers.h, `IFLAGS_TEST`). -/
def IFLAGS_TEST : Nat := 0x20000000

/-- Internal flag bit (buffers.h, `IFLAGS_IIE_REGS`). -/
def IFLAGS_IIE_REGS : Nat := 0x40000000

/-- Internal flag bit (buffers.h, `IFLAGS_IIGS_REGS`). -/
def IFLAGS_IIGS_REGS : Nat := 0x80000000

/-- Magic word marking a valid stored configuration ("DVI2"). -/
def CFG_MAGIC_WORD_VALUE : Nat := 0x32495644

/-- Magic word marking a valid font directory ("FONT"). -/
def FONT_MAGIC_WORD_VALUE : Nat := 0x544e4f46

/-- Modelled from the spec: the flash erase-sector size of the target platform
(pico-SDK header, not in src/); the code reserves "4K for a config structure"
per sector. -/
def FLASH_SECTOR_SIZE : Nat := 4096

/-- Modelled from the spec: machine-type enumeration value (config.h, not in
src/).  The claims do not depend on the specific numbers. -/
def MACHINE_AUTO : Nat := 0

/-- Modelled from the spec: machine-type enumeration value (config.h, not in src/). -/
def MACHINE_AGAT7 : Nat := 1

/-- Modelled from the spec: machine-type enumeration value (config.h, not in src/). -/
def MACHINE_AGAT9 : Nat := 2

/-- Modelled from the spec: machine-type enumeration value (config.h, not in src/). -/
def MACHINE_BASIS : Nat := 3

/-- Modelled from the spec: machine-type enumeration value (config.h, not in src/). -/
def MACHINE_PRAVETZ : Nat := 4

/-- Modelled from the spec: machine-type enumeration value (config.h, not in src/). -/
def MACHINE_II : Nat := 5

/-- Modelled from the spec: machine-type enumeration value (config.h, not in src/). -/
def MACHINE_IIE : Nat := 6

/-- Modelled from the spec: machine-type enumeration value (config.h, not in src/). -/
def MACHINE_IIGS : Nat := 7

/-- Modelled from the spec: largest machine type a stored config may select
(config.h, not in src/). -/
def MACHINE_MAX_CFG : Nat := 7

/-- Modelled from the spec: the black-and-white color mode value (config.h,
not in src/). -/
def COLOR_MODE_BW : Nat := 0

/-- Modelled from the spec: total number of fonts (fonts/textfont.h, not in src/). -/
def MAX_FONT_COUNT : Nat := 48

/-- Modelled from the spec: number of flash-programmable custom fonts
(fonts/textfont.h, not in src/). -/
def CUSTOM_FONT_COUNT : Nat := 16

/-- Modelled from the spec: default local charset index (fonts/textfont.h, not in src/). -/
def DEFAULT_LOCAL_CHARSET : Nat := 0

/-- Modelled from the spec: default alternate charset index (fonts/textfont.h, not in src/). -/
def DEFAULT_ALT_CHARSET : Nat := 0

/-- The packed `struct config_t` stored in flash (magic word, recorded size,
and the persisted option bytes). -/
structure ConfigT where
  magic_word : Nat
  size : Nat
  scanline_emulation : Nat
  forced_monochrome : Nat
  color_mode : Nat
  machine_type : Nat
  local_charset : Nat
  alt_charset : Nat
  language_switch_enabled : Nat
  enhanced_font_enabled : Nat
  video7_enabled : Nat
  debug_lines_enabled : Nat
  test_mode_enabled : Nat
deriving DecidableEq, Repr

/-- The `struct fontdir_t` stored in flash. -/
structure FontDir where
  magic_word : Nat
  invalid_fonts : Nat
deriving DecidableEq, Repr

/-- A character-ROM copy performed by `config_load_charsets` (the four
`memcpy32` call sites). -/
inductive RomOp
  | loadLocalFont (font : Nat)
  | unenhanceLocal
  | loadAltFont (font : Nat)
  | unenhanceAlt
deriving DecidableEq, Repr

/-- The global state the config loader reads and writes: the flag word and the
config/charset globals of config.c, plus a log of character-ROM copies. -/
structure SysState where
  internal_flags : Nat
  current_machine : Nat
  cfg_machine : Nat
  detected_machine : Nat
  language_switch_enabled : Bool
  enhanced_font_enabled : Bool
  color_mode : Nat
  cfg_local_charset : Nat
  cfg_alt_charset : Nat
  reload_charsets : Nat
  invalid_fonts : Nat
  rom_ops : List RomOp
deriving DecidableEq, Repr

/-- `SET_IFLAG(condition, FLAGS)` of buffers.h: set or clear flag bits in a
32-bit flag word. -/
def SET_IFLAG (condition : Bool) (flags f : Nat) : Nat :=
  if condition then f ||| flags else f &&& (0xFFFFFFFF ^^^ flags)

/-- `set_machine` of config.c: adjust the IIe/IIgs register-emulation flag bits
for the selected machine and record it as the current machine. -/
def set_machine (machine : Nat) (s : SysState) : SysState :=
  let f :=
    if machine = MACHINE_AUTO ∨ machine = MACHINE_AGAT7 ∨ machine = MACHINE_AGAT9 ∨
        machine = MACHINE_BASIS ∨ machine = MACHINE_PRAVETZ ∨ machine = MACHINE_II then
      s.internal_flags &&& (0xFFFFFFFF ^^^ (IFLAGS_IIGS_REGS ||| IFLAGS_IIE_REGS))
    else if machine = MACHINE_IIE then
      (s.internal_flags &&& (0xFFFFFFFF ^^^ IFLAGS_IIGS_REGS)) ||| IFLAGS_IIE_REGS
    else if machine = MACHINE_IIGS then
      (s.internal_flags &&& (0xFFFFFFFF ^^^ IFLAGS_IIE_REGS)) ||| IFLAGS_IIGS_REGS
    else s.internal_flags
  { s with internal_flags := f, current_machine := machine }

/-- `check_valid_font` of config.c. -/
def check_valid_font (inv_fonts font_nr : Nat) : Nat :=
  if font_nr < MAX_FONT_COUNT - CUSTOM_FONT_COUNT then font_nr
  else if inv_fonts &&& (1 <<< (font_nr - (MAX_FONT_COUNT - CUSTOM_FONT_COUNT))) = 0 then font_nr
  else DEFAULT_LOCAL_CHARSET

/-- `config_load_charsets` of config.c: perform the requested ROM copies and
clear the request bits. -/
def config_load_charsets (s : SysState) : SysState :=
  let s1 :=
    if s.reload_charsets &&& 1 != 0 then
      { s with rom_ops := s.rom_ops ++
          ([RomOp.loadLocalFont (check_valid_font s.invalid_fonts s.cfg_local_charset)] ++
            (if s.enhanced_font_enabled then [] else [RomOp.unenhanceLocal])) }
    else s
  let s2 :=
    if s1.reload_charsets &&& 2 != 0 then
      { s1 with rom_ops := s1.rom_ops ++
          ([RomOp.loadAltFont (check_valid_font s1.invalid_fonts s1.cfg_alt_charset)] ++
            (if s1.enhanced_font_enabled then [] else [RomOp.unenhanceAlt])) }
    else s1
  { s2 with reload_charsets := 0 }

/-- `config_load_defaults` of config.c (lines 434-458): reset every persisted
option to its built-in default. -/
def config_load_defaults (s : SysState) : SysState :=
  let f := SET_IFLAG true IFLAGS_SCANLINEEMU s.internal_flags
  let f := SET_IFLAG false IFLAGS_DEBUG_LINES f
  let f := SET_IFLAG false IFLAGS_FORCED_MONO f
  let f := SET_IFLAG false IFLAGS_VIDEO7 f
  let f := SET_IFLAG false IFLAGS_TEST f
  let s := { s with internal_flags := f, color_mode := COLOR_MODE_BW,
                    cfg_machine := MACHINE_AUTO }
  let s := set_machine s.detected_machine s
  { s with language_switch_enabled := false, enhanced_font_enabled := true,
           cfg_local_charset := DEFAULT_LOCAL_CHARSET, cfg_alt_charset := DEFAULT_ALT_CHARSET,
           reload_charsets := 3 }

/-- First step of `config_load`: adopt the stored invalid-font mask when the
font directory carries a valid magic word. -/
def applyFontDir (fd : FontDir) (s : SysState) : SysState :=
  if fd.magic_word = FONT_MAGIC_WORD_VALUE then { s with invalid_fonts := fd.invalid_fonts }
  else s

/-- `config_load` of config.c (lines 385-431): validate the stored config and
either apply its fields or fall back to the defaults.  (The
`APPLE_MODEL_IIPLUS` videx block is conditionally compiled out and not part of
this build.) -/
def config_load (cfg : ConfigT) (fd : FontDir) (s : SysState) : SysState :=
  let s := applyFontDir fd s
  if cfg.magic_word ≠ CFG_MAGIC_WORD_VALUE ∨ cfg.size > FLASH_SECTOR_SIZE then
    config_load_defaults s
  else
    let cm := if cfg.machine_type ≤ MACHINE_MAX_CFG then cfg.machine_type else MACHINE_AUTO
    let s := set_machine cm { s with cfg_machine := cm }
    let f := SET_IFLAG (cfg.scanline_emulation != 0) IFLAGS_SCANLINEEMU s.internal_flags
    let f := SET_IFLAG (cfg.forced_monochrome != 0) IFLAGS_FORCED_MONO f
    let f := SET_IFLAG (cfg.video7_enabled != 0) IFLAGS_VIDEO7 f
    let f := SET_IFLAG (cfg.debug_lines_enabled != 0) IFLAGS_DEBUG_LINES f
    let f := SET_IFLAG (cfg.test_mode_enabled != 0) IFLAGS_TEST f
    let s := { s with internal_flags := f,
                      language_switch_enabled := cfg.language_switch_enabled != 0,
                      enhanced_font_enabled := cfg.enhanced_font_enabled != 0,
                      color_mode := if cfg.color_mode ≤ 2 then cfg.color_mode else 0,
                      cfg_local_charset :=
                        if cfg.local_charset ≥ MAX_FONT_COUNT then 0 else cfg.local_charset,
                      cfg_alt_charset :=
                        if cfg.alt_charset ≥ MAX_FONT_COUNT then 0 else cfg.alt_charset,
                      reload_charsets := 3 }
    config_load_charsets s

/-- C9: if the stored configuration is invalid (wrong magic word or recorded
size above the flash sector size), `config_load` applies none of the stored
fields and instead loads the built-in defaults before returning: the result is
exactly the defaults state, with every user-visible option at its default and
no character-ROM copy performed. -/
theorem config_load_fails_closed (cfg : ConfigT) (fd : FontDir) (s : SysState)
    (h : cfg.magic_word ≠ CFG_MAGIC_WORD_VALUE ∨ cfg.size > FLASH_SECTOR_SIZE) :
    config_load cfg fd s = config_load_defaults (applyFontDir fd s) ∧
    (config_load cfg fd s).color_mode = COLOR_MODE_BW ∧
    (config_load cfg fd s).cfg_machine = MACHINE_AUTO ∧
    (config_load cfg fd s).language_switch_enabled = false ∧
    (config_load cfg fd s).enhanced_font_enabled = true ∧
    (config_load cfg fd s).cfg_local_charset = DEFAULT_LOCAL_CHARSET ∧
    (config_load cfg fd s).cfg_alt_charset = DEFAULT_ALT_CHARSET ∧
    (config_load cfg fd s).reload_charsets = 3 ∧
    (config_load cfg fd s).rom_ops = s.rom_ops := by
  have hmain : config_load cfg fd s = config_load_defaults (applyFontDir fd s) := by
    unfold config_load
    rw [if_pos h]
  have hrom : (applyFontDir fd s).rom_ops = s.rom_ops := by
    unfold applyFontDir
    split <;> rfl
  refine ⟨hmain, ?_, ?_, ?_, ?_, ?_, ?_, ?_, ?_⟩ <;> rw [hmain]
  · rfl
  · rfl
  · rfl
  · rfl
  · rfl
  · rfl
  · rfl
  · exact hrom

/-- Invalid stored config used by the C9 witness (zero magic word). -/
def cfgBad : ConfigT := ⟨0, 0, 0, 0, 0, 0, 0, 0, 0, 0, 0, 0, 0⟩

/-- Empty font directory used by the C9 witness. -/
def fdNone : FontDir := ⟨0, 0⟩

/-- All-zero system state used by the C9 witness. -/
def sysZero : SysState := ⟨0, 0, 0, 0, false, false, 0, 0, 0, 0, 0, []⟩

/-- Witness for C9 on concrete invalid data. -/
theorem config_load_fails_closed_witness :
    (cfgBad.magic_word ≠ CFG_MAGIC_WORD_VALUE ∨ cfgBad.size > FLASH_SECTOR_SIZE) ∧
    (config_load cfgBad fdNone sysZero = config_load_defaults (applyFontDir fdNone sysZero) ∧
     (config_load cfgBad fdNone sysZero).color_mode = COLOR_MODE_BW ∧
     (config_load cfgBad fdNone sysZero).cfg_machine = MACHINE_AUTO ∧
     (config_load cfgBad fdNone sysZero).language_switch_enabled = false ∧
     (config_load cfgBad fdNone sysZero).enhanced_font_enabled = true ∧
     (config_load cfgBad fdNone sysZero).cfg_local_charset = DEFAULT_LOCAL_CHARSET ∧
     (config_load cfgBad fdNone sysZero).cfg_alt_charset = DEFAULT_ALT_CHARSET ∧
     (config_load cfgBad fdNone sysZero).reload_charsets = 3 ∧
     (config_load cfgBad fdNone sysZero).rom_ops = sysZero.rom_ops) :=
  ⟨Or.inl (by decide),
   config_load_fails_closed cfgBad fdNone sysZero (Or.inl (by decide))⟩

end A2DVI
